import Mathlib

/-!
Shallow embedding of the RAG pipeline script (src/rag/rag/main.py).

The script wires third-party components (document loaders, a recursive
character text splitter, an in-memory vector store, a prompt template, an
embedding client and a generative client) into a linear load -> split ->
index -> retrieve -> generate flow.  The glue code (document concatenation,
context joining, the two-node state graph, the printed output) is embedded
directly from the source; the library components whose code is not part of
this repository are modelled from the specification, each such definition
carrying a doc comment saying so.
-/

namespace Rag

/-- A document: text content plus metadata (a source identifier and, for
chunks produced by the splitter, the starting character offset within the
parent document). -/
structure Document where
  page_content : String
  source : String
  start_index : Option Nat
deriving DecidableEq

/-! ### Text splitter -/

/-- Modelled from the spec: one step of the character splitter, written with
explicit fuel so that it is structurally recursive.  With maximum chunk
length L and overlap O, a text longer than L yields a chunk of the first L
characters and the next window starts L - O characters later, so consecutive
windows share O characters.  Each produced pair is (start offset, chunk
characters). -/
def splitCharsFuel (L O : Nat) : Nat → List Char → Nat → List (Nat × List Char)
  | 0, cs, start => [(start, cs)]
  | fuel + 1, cs, start =>
    if cs.length ≤ L ∨ L - O = 0 then [(start, cs)]
    else (start, cs.take L) :: splitCharsFuel L O fuel (cs.drop (L - O)) (start + (L - O))

/-- Modelled from the spec: split a character list into overlapping windows
of length at most L with overlap O, recording each window's start offset. -/
def splitChars (L O : Nat) (cs : List Char) : List (Nat × List Char) :=
  splitCharsFuel L O cs.length cs 0

/-- Modelled from the spec: split one document, wrapping each window as a
chunk Document that keeps the parent's source and records the window's
start offset (the splitter is configured with add_start_index=True). -/
def splitDocument (L O : Nat) (d : Document) : List Document :=
  (splitChars L O d.page_content.data).map
    (fun p => ⟨String.mk p.2, d.source, some p.1⟩)

/-- split_documents: split each document of the input sequence in order and
append the resulting chunk lists, as the library's loop over the input
documents does. -/
def split_documents (L O : Nat) (docs : List Document) : List Document :=
  docs.foldl (fun acc d => acc ++ splitDocument L O d) []

/-! ### Vector store -/

/-- An embedding vector, a fixed-dimension numeric array modelled with
exact integer coordinates. -/
abbrev Vec := List ℤ

/-- A stored entry: a chunk together with its embedding vector. -/
abbrev Entry := Document × Vec

/-- Modelled from the spec: the similarity metric, squared L2 distance
between a query vector and a stored vector. -/
def sqDist (v w : Vec) : ℤ :=
  (List.zipWith (fun a b => (a - b) * (a - b)) v w).sum

/-- Distance from the query vector to an index-tagged store entry. -/
def entryKey (q : Vec) (e : Nat × Entry) : ℤ := sqDist q e.2.2

/-- Modelled from the spec: the search ordering on index-tagged entries —
strictly smaller distance first, ties broken by insertion order. -/
def searchLe (q : Vec) (a b : Nat × Entry) : Prop :=
  entryKey q a < entryKey q b ∨ (entryKey q a = entryKey q b ∧ a.1 ≤ b.1)

instance searchLeDecidable (q : Vec) : DecidableRel (searchLe q) := fun a b =>
  inferInstanceAs
    (Decidable (entryKey q a < entryKey q b ∨ (entryKey q a = entryKey q b ∧ a.1 ≤ b.1)))

instance searchLeTotal (q : Vec) : IsTotal (Nat × Entry) (searchLe q) where
  total a b := by
    rcases lt_trichotomy (entryKey q a) (entryKey q b) with h | h | h
    · exact Or.inl (Or.inl h)
    · rcases Nat.le_total a.1 b.1 with hn | hn
      · exact Or.inl (Or.inr ⟨h, hn⟩)
      · exact Or.inr (Or.inr ⟨h.symm, hn⟩)
    · exact Or.inr (Or.inl h)

instance searchLeTrans (q : Vec) : IsTrans (Nat × Entry) (searchLe q) where
  trans a b c hab hbc := by
    rcases hab with hab | ⟨hab, hab2⟩
    · rcases hbc with hbc | ⟨hbc, _⟩
      · exact Or.inl (hab.trans hbc)
      · exact Or.inl (hbc ▸ hab)
    · rcases hbc with hbc | ⟨hbc, hbc2⟩
      · exact Or.inl (hab ▸ hbc)
      · exact Or.inr ⟨hab.trans hbc, hab2.trans hbc2⟩

/-- Modelled from the spec: the store entries tagged with insertion index,
stably sorted by distance to the query, truncated to the first k. -/
def searchEntries (q : Vec) (k : Nat) (store : List Entry) : List (Nat × Entry) :=
  (store.enum.insertionSort (searchLe q)).take k

/-- The sorted entries not returned by a search with cutoff k. -/
def restEntries (q : Vec) (k : Nat) (store : List Entry) : List (Nat × Entry) :=
  (store.enum.insertionSort (searchLe q)).drop k

/-- Modelled from the spec: similarity search result as plain chunks. -/
def searchDocs (q : Vec) (k : Nat) (store : List Entry) : List Document :=
  (searchEntries q k store).map (fun e => e.2.1)

/-- Modelled from the spec: the retrieval count k is the embedding library's
default, 4, since the source does not configure it. -/
def defaultK : Nat := 4

/-- similarity_search: embed the question and return the default number of
nearest chunks. -/
def similarity_search (embed : String → Vec) (store : List Entry)
    (question : String) : List Document :=
  searchDocs (embed question) defaultK store

/-- add_documents: embed every chunk and store the pairs in order. -/
def add_documents (embed : String → Vec) (splits : List Document) : List Entry :=
  splits.map (fun d => (d, embed d.page_content))

/-! ### Pipeline state, prompt and the two stages -/

/-- The pipeline state threaded through the graph: question, retrieved
context, generated answer. -/
structure State where
  question : String
  context : List Document
  answer : String
deriving DecidableEq

/-- Modelled from the spec: the prompt template (rlm/rag-prompt, an external
asset) fills a fixed scaffold with the question and the context text; the
structured message is modelled as the pair of the two filled slots. -/
structure PromptMessages where
  question : String
  context : String
deriving DecidableEq

/-- Modelled from the spec: rendering the prompt template. -/
def promptInvoke (q c : String) : PromptMessages := ⟨q, c⟩

/-- Python's str.join semantics: empty for an empty list, otherwise the
elements with the separator between consecutive elements. -/
def pyJoin (sep : String) : List String → String
  | [] => ""
  | [x] => x
  | x :: y :: xs => x ++ sep ++ pyJoin sep (y :: xs)

/-- docs_content: the chunk contents joined with a blank line, as in the
generate stage of the source. -/
def docs_content (ctx : List Document) : String :=
  pyJoin "\n\n" (ctx.map Document.page_content)

/-- The message the generate stage passes to the generative model: the
prompt rendered with the state's question and the joined context. -/
def generateMessage (s : State) : PromptMessages :=
  promptInvoke s.question (docs_content s.context)

/-- retrieve: search the vector store with the state's question and set the
context field; nothing else changes. -/
def retrieve (embed : String → Vec) (store : List Entry) (s : State) : State :=
  { s with context := similarity_search embed store s.question }

/-- generate: render the prompt from question and joined context, call the
generative model, set the answer field; nothing else changes. -/
def generate (llm : PromptMessages → String) (s : State) : State :=
  { s with answer := llm (generateMessage s) }

/-- The node sequence built by add_sequence: retrieve, then generate. -/
def graphNodes (embed : String → Vec) (store : List Entry)
    (llm : PromptMessages → String) : List (State → State) :=
  [retrieve embed store, generate llm]

/-- Run a node list in order on a state, as the compiled sequential graph
does. -/
def runNodes (nodes : List (State → State)) (s : State) : State :=
  nodes.foldl (fun st f => f st) s

/-- The initial state of an invocation: only the question is set. -/
def initState (q : String) : State := ⟨q, [], ""⟩

/-- graph.invoke: run the two-node sequence on a fresh state holding the
question. -/
def graphInvoke (embed : String → Vec) (store : List Entry)
    (llm : PromptMessages → String) (q : String) : State :=
  runNodes (graphNodes embed store llm) (initState q)

/-! ### File loader and glob matching -/

/-- Modelled from the spec: match one glob segment against one path
segment; a star matches any run of characters inside the segment. -/
def segMatch : List Char → List Char → Bool
  | [], s => s.isEmpty
  | p :: ps, s =>
    if p = '*' then s.tails.any (fun t => segMatch ps t)
    else
      match s with
      | [] => false
      | c :: t => p == c && segMatch ps t

/-- Modelled from the spec: match a glob pattern (segment list) against a
relative path (segment list); a double-star segment matches any number of
directory levels, as in Python's pathlib glob used by the directory
loader. -/
def globMatch : List String → List String → Bool
  | [], path => path.isEmpty
  | p :: ps, path =>
    if p = "**" then path.tails.any (fun t => globMatch ps t)
    else
      match path with
      | [] => false
      | s :: t => segMatch p.data s.data && globMatch ps t

/-- The glob the source passes to the directory loader, from the line
glob="**/*.txt" of main.py, split into segments. -/
def txtGlob : List String := ["**", "*.txt"]

/-- Wrap one filesystem file (relative path segments, text content) as a
document tagged with its path. -/
def mkFileDoc (f : List String × String) : Document :=
  ⟨f.2, String.intercalate "/" f.1, none⟩

/-- Modelled from the spec: the directory loader over a filesystem listing,
keeping exactly the files whose path matches the source's glob, in listing
order, each loaded as one document. -/
def fileLoader (fs : List (List String × String)) : List Document :=
  (fs.filter (fun f => globMatch txtGlob f.1)).map mkFileDoc

/-- A path names a text file when its final segment ends in ".txt". -/
def txtFile (path : List String) : Bool :=
  match path.getLast? with
  | none => false
  | some n => ".txt".data.isSuffixOf n.data

/-! ### Script top level -/

/-- all_docs: the combined corpus, web documents first then file documents,
from the line all_docs = web_docs + file_docs. -/
def all_docs (web file : List Document) : List Document := web ++ file

/-- The first line the script prints. -/
def webCountMsg (web : List Document) : String :=
  "Loaded " ++ toString web.length ++ " web documents."

/-- The second line the script prints, about the first combined document. -/
def totalCharsMsg (d : Document) : String :=
  "Total characters: " ++ toString d.page_content.length

/-- The hard-coded question of the single invocation. -/
def theQuestion : String := "What are some username passwords?"

/-- The store built at startup: the combined corpus split with chunk size
1000 and overlap 200, embedded and inserted in order. -/
def indexedStore (embed : String → Vec) (web : List Document)
    (fs : List (List String × String)) : List Entry :=
  add_documents embed (split_documents 1000 200 (all_docs web (fileLoader fs)))

/-- The whole script run: given the loaded web documents, the local
filesystem listing and the two model clients, produce the printed lines and
the final pipeline state.  Indexing the first combined document fails when
the corpus is empty, aborting the run after the first printed line with no
state produced. -/
def scriptRun (web : List Document) (fs : List (List String × String))
    (embed : String → Vec) (llm : PromptMessages → String) :
    List String × Option State :=
  let msg1 := webCountMsg web
  match (all_docs web (fileLoader fs)).head? with
  | none => ([msg1], none)
  | some d =>
    let store := indexedStore embed web fs
    let st := graphInvoke embed store llm theQuestion
    ([msg1, totalCharsMsg d, st.answer], some st)

end Rag

namespace Rag

/-! ### Helper lemmas -/

theorem pyJoin_append_head (sep x y : String) :
    ∀ l, pyJoin sep ((x ++ y) :: l) = x ++ pyJoin sep (y :: l)
  | [] => rfl
  | z :: l => by simp only [pyJoin, String.append_assoc]

theorem intercalate_go_eq (sep : String) :
    ∀ (as : List String) (acc : String),
      String.intercalate.go acc sep as = pyJoin sep (acc :: as)
  | [], _ => rfl
  | a :: as, acc => by
    show String.intercalate.go (acc ++ sep ++ a) sep as = _
    rw [intercalate_go_eq sep as (acc ++ sep ++ a),
      show acc ++ sep ++ a = (acc ++ sep) ++ a from rfl, pyJoin_append_head]
    cases as <;> simp [pyJoin, String.append_assoc]

theorem pyJoin_eq_intercalate (sep : String) :
    ∀ l, pyJoin sep l = String.intercalate sep l
  | [] => rfl
  | a :: as => (intercalate_go_eq sep as a).symm

theorem foldl_append_splits (f : Document → List Document) :
    ∀ (docs : List Document) (init : List Document),
      docs.foldl (fun acc d => acc ++ f d) init = init ++ (docs.map f).flatten
  | [], init => by simp
  | d :: docs, init => by
    simp only [List.foldl_cons, List.map_cons, List.flatten_cons]
    rw [foldl_append_splits f docs (init ++ f d), List.append_assoc]

end Rag

namespace Rag

/-! ### Claim theorems -/

/-- Claim C3: for every pipeline state whose context is the retrieved chunk
sequence, the context text handed to the prompt template by the generate
stage is the chunks' contents joined with a blank line between chunks, in
the order of the sequence. -/
theorem C3_context_is_joined_chunks (q : String) (ctx : List Document)
    (a : String) (llm : PromptMessages → String) :
    (generateMessage ⟨q, ctx, a⟩).context
      = String.intercalate "\n\n" (ctx.map Document.page_content)
    ∧ (generate llm ⟨q, ctx, a⟩).answer
      = llm (promptInvoke q
          (String.intercalate "\n\n" (ctx.map Document.page_content))) := by
  have h : docs_content ctx
      = String.intercalate "\n\n" (ctx.map Document.page_content) :=
    pyJoin_eq_intercalate "\n\n" (ctx.map Document.page_content)
  constructor
  · exact h
  · show llm (generateMessage ⟨q, ctx, a⟩) = _
    rw [show generateMessage ⟨q, ctx, a⟩ = promptInvoke q (docs_content ctx) from rfl, h]

/-- Claim C4: the pipeline is the unconditional two-stage sequence retrieve
then generate; retrieve sets only the context field (to the search result
for the state's question) and generate sets only the answer field, each
leaving every other field unchanged. -/
theorem C4_two_stage_frame (embed : String → Vec) (store : List Entry)
    (llm : PromptMessages → String) (q : String) (s : State) :
    graphInvoke embed store llm q = generate llm (retrieve embed store (initState q))
    ∧ (retrieve embed store s).question = s.question
    ∧ (retrieve embed store s).answer = s.answer
    ∧ (retrieve embed store s).context = similarity_search embed store s.question
    ∧ (generate llm s).question = s.question
    ∧ (generate llm s).context = s.context
    ∧ (generate llm s).answer = llm (generateMessage s) :=
  ⟨rfl, rfl, rfl, rfl, rfl, rfl, rfl⟩

/-- Claim C5: the combined corpus is the web documents followed by the file
documents; position i of the combination reads from the web list while i is
below its length and from the file list (shifted) afterwards, so every web
document precedes every file document with each loader's order intact. -/
theorem C5_corpus_concatenation (web file : List Document) (i : Nat) :
    (all_docs web file).length = web.length + file.length
    ∧ (all_docs web file)[i]?
      = if i < web.length then web[i]? else file[i - web.length]? := by
  refine ⟨List.length_append _ _, ?_⟩
  by_cases h : i < web.length
  · rw [if_pos h]
    exact List.getElem?_append_left h
  · rw [if_neg h]
    exact List.getElem?_append_right (Nat.le_of_not_lt h)

/-- Claim C6: splitting a document sequence is the concatenation of the
per-document splits in input order, so all chunks of document i precede all
chunks of document i+1. -/
theorem C6_split_preserves_document_order (L O : Nat) (docs : List Document) :
    split_documents L O docs
      = (docs.map (splitDocument L O)).flatten
    ∧ ∀ (d : Document) (ds : List Document),
        split_documents L O (d :: ds)
          = splitDocument L O d ++ split_documents L O ds := by
  constructor
  · rw [split_documents, foldl_append_splits, List.nil_append]
  · intro d ds
    rw [split_documents, split_documents, List.foldl_cons,
      foldl_append_splits, foldl_append_splits, List.nil_append, List.nil_append]

/-- Claim C7: with an empty vector store the retrieve stage produces an
empty context, the rendered prompt's context section is the empty string,
and the generate stage still calls the generative model on that empty
context. -/
theorem C7_empty_store_no_guard (embed : String → Vec)
    (llm : PromptMessages → String) (q : String) :
    (retrieve embed [] (initState q)).context = []
    ∧ generateMessage (retrieve embed [] (initState q)) = promptInvoke q ""
    ∧ (graphInvoke embed [] llm q).answer = llm (promptInvoke q "") :=
  ⟨rfl, rfl, rfl⟩

end Rag

namespace Rag

/-- Claim C1: for every query vector, cutoff k and store contents, the
search returns exactly k entries (or all of them when the store holds fewer
than k); the returned entries are ordered by non-decreasing distance with
ties broken by insertion order; every returned entry is at least as close
as every entry not returned; returned and remaining entries together are a
permutation of the indexed store; and the retrieve stage's context is
exactly this search at the library's default k on the question's
embedding. -/
theorem C1_search_topk_sorted_stable (q : Vec) (k : Nat) (store : List Entry) :
    (searchDocs q k store).length = min k store.length
    ∧ List.Pairwise
        (fun a b => entryKey q a ≤ entryKey q b
          ∧ (entryKey q a = entryKey q b → a.1 ≤ b.1))
        (searchEntries q k store)
    ∧ (∀ a ∈ searchEntries q k store, ∀ b ∈ restEntries q k store,
        entryKey q a ≤ entryKey q b)
    ∧ (searchEntries q k store ++ restEntries q k store).Perm store.enum
    ∧ (∀ (embed : String → Vec) (s : State),
        (retrieve embed store s).context
          = searchDocs (embed s.question) defaultK store) := by
  have hsorted : List.Sorted (searchLe q) (store.enum.insertionSort (searchLe q)) :=
    List.sorted_insertionSort (searchLe q) store.enum
  have hweak : ∀ a b : Nat × Entry, searchLe q a b →
      entryKey q a ≤ entryKey q b ∧ (entryKey q a = entryKey q b → a.1 ≤ b.1) := by
    intro a b hab
    rcases hab with h | ⟨h1, h2⟩
    · exact ⟨h.le, fun he => absurd he h.ne⟩
    · exact ⟨h1.le, fun _ => h2⟩
  have hsplit : searchEntries q k store ++ restEntries q k store
      = store.enum.insertionSort (searchLe q) :=
    List.take_append_drop k _
  refine ⟨?_, ?_, ?_, ?_, fun _ _ => rfl⟩
  · simp [searchDocs, searchEntries]
  · exact (List.Pairwise.sublist (List.take_sublist _ _) hsorted).imp
      (fun hab => hweak _ _ hab)
  · intro a ha b hb
    have hPW : List.Pairwise (searchLe q)
        (searchEntries q k store ++ restEntries q k store) := by
      rw [hsplit]; exact hsorted
    exact (hweak _ _ ((List.pairwise_append.mp hPW).2.2 a ha b hb)).1
  · rw [hsplit]
    exact List.perm_insertionSort (searchLe q) store.enum

end Rag

namespace Rag

theorem splitCharsFuel_len (L O : Nat) (hLO : L - O ≠ 0) :
    ∀ (fuel : Nat) (cs : List Char) (start : Nat), cs.length ≤ fuel →
      ∀ p ∈ splitCharsFuel L O fuel cs start, p.2.length ≤ L := by
  intro fuel
  induction fuel with
  | zero =>
    intro cs start hcs p hp
    have hnil : cs = [] := List.eq_nil_of_length_eq_zero (Nat.le_zero.mp hcs)
    subst hnil
    simp only [splitCharsFuel, List.mem_singleton] at hp
    subst hp
    simp
  | succ n ih =>
    intro cs start hcs p hp
    rw [splitCharsFuel] at hp
    by_cases h : cs.length ≤ L ∨ L - O = 0
    · rw [if_pos h] at hp
      rcases h with h | h
      · simp only [List.mem_singleton] at hp
        subst hp
        exact h
      · exact absurd h hLO
    · rw [if_neg h] at hp
      rcases List.mem_cons.mp hp with hp | hp
      · subst hp
        simp [Nat.min_le_left]
      · refine ih _ _ ?_ p hp
        simp only [List.length_drop]
        omega

theorem splitCharsFuel_content (L O : Nat) :
    ∀ (fuel : Nat) (cs : List Char) (start : Nat),
      ∀ p ∈ splitCharsFuel L O fuel cs start,
        start ≤ p.1 ∧ p.2 = (cs.drop (p.1 - start)).take p.2.length := by
  intro fuel
  induction fuel with
  | zero =>
    intro cs start p hp
    simp only [splitCharsFuel, List.mem_singleton] at hp
    subst hp
    simp
  | succ n ih =>
    intro cs start p hp
    rw [splitCharsFuel] at hp
    by_cases h : cs.length ≤ L ∨ L - O = 0
    · rw [if_pos h] at hp
      simp only [List.mem_singleton] at hp
      subst hp
      simp
    · rw [if_neg h] at hp
      rcases List.mem_cons.mp hp with hp | hp
      · subst hp
        refine ⟨Nat.le_refl _, ?_⟩
        simp only [Nat.sub_self, List.drop_zero, List.length_take]
        rw [← List.take_take, List.take_length]
      · obtain ⟨hle, hcont⟩ := ih _ _ p hp
        refine ⟨by omega, ?_⟩
        have harith : L - O + (p.1 - (start + (L - O))) = p.1 - start := by omega
        rw [List.drop_drop, harith] at hcont
        exact hcont

theorem splitCharsFuel_head (L O fuel : Nat) (cs : List Char) (start : Nat) :
    (splitCharsFuel L O fuel cs start).head?.map Prod.fst = some start := by
  cases fuel with
  | zero => rfl
  | succ n =>
    rw [splitCharsFuel]
    by_cases h : cs.length ≤ L ∨ L - O = 0
    · rw [if_pos h]; rfl
    · rw [if_neg h]; rfl

theorem splitCharsFuel_chain (L O : Nat) :
    ∀ (fuel : Nat) (cs : List Char) (start : Nat),
      List.Chain' (fun a b => b.1 ≤ a.1 + (L - O))
        (splitCharsFuel L O fuel cs start) := by
  intro fuel
  induction fuel with
  | zero => intro cs start; exact List.chain'_singleton _
  | succ n ih =>
    intro cs start
    rw [splitCharsFuel]
    by_cases h : cs.length ≤ L ∨ L - O = 0
    · rw [if_pos h]; exact List.chain'_singleton _
    · rw [if_neg h]
      rw [List.chain'_cons']
      refine ⟨?_, ih _ _⟩
      intro y hy
      have hh := splitCharsFuel_head L O n (cs.drop (L - O)) (start + (L - O))
      have hsome : (splitCharsFuel L O n (cs.drop (L - O)) (start + (L - O))).head?
          = some y := hy
      rw [hsome] at hh
      have : y.1 = start + (L - O) := Option.some.inj hh
      omega

/-- Claim C2: splitting with maximum length 1000 and overlap 200 produces
chunks of content length at most 1000; every chunk records as metadata a
start offset at which its content occurs verbatim in the parent document;
and for consecutive chunks the second recorded offset exceeds the first by
at most 800 = 1000 - 200. -/
theorem C2_splitter_invariants (d : Document) :
    (∀ c ∈ splitDocument 1000 200 d, c.page_content.length ≤ 1000)
    ∧ (∀ c ∈ splitDocument 1000 200 d, ∃ s, c.start_index = some s
        ∧ c.page_content.data
          = (d.page_content.data.drop s).take c.page_content.length)
    ∧ List.Chain'
        (fun a b => ∀ s₁ s₂, a.start_index = some s₁ → b.start_index = some s₂
          → s₂ ≤ s₁ + 800) (splitDocument 1000 200 d) := by
  refine ⟨?_, ?_, ?_⟩
  · intro c hc
    rw [splitDocument] at hc
    obtain ⟨p, hp, rfl⟩ := List.mem_map.mp hc
    exact splitCharsFuel_len 1000 200 (by decide) _ _ _ (Nat.le_refl _) p hp
  · intro c hc
    rw [splitDocument] at hc
    obtain ⟨p, hp, rfl⟩ := List.mem_map.mp hc
    obtain ⟨_, hcont⟩ := splitCharsFuel_content 1000 200 _ _ _ p hp
    refine ⟨p.1, rfl, ?_⟩
    simpa using hcont
  · rw [splitDocument]
    refine (List.chain'_map _).mpr
      ((splitCharsFuel_chain 1000 200 _ _ _).imp ?_)
    intro a b hab s₁ s₂ h₁ h₂
    have ha : s₁ = a.1 := (Option.some.inj h₁).symm
    have hb : s₂ = b.1 := (Option.some.inj h₂).symm
    omega

end Rag

namespace Rag

theorem segMatch_lit :
    ∀ (ps : List Char), '*' ∉ ps → ∀ t, segMatch ps t = true ↔ t = ps := by
  intro ps
  induction ps with
  | nil => intro _ t; simp [segMatch, List.isEmpty_iff]
  | cons p ps ih =>
    intro hmem t
    rw [List.mem_cons] at hmem
    push_neg at hmem
    obtain ⟨h1, h2⟩ := hmem
    simp only [segMatch]
    rw [if_neg (Ne.symm h1)]
    cases t with
    | nil => simp
    | cons c t' =>
      rw [Bool.and_eq_true, beq_iff_eq, ih h2 t']
      constructor
      · rintro ⟨hc, ht⟩; rw [hc, ht]
      · intro h
        injection h with hc ht
        exact ⟨hc.symm, ht⟩

theorem segMatch_star (ps : List Char) (hstar : '*' ∉ ps) (s : List Char) :
    segMatch ('*' :: ps) s = true ↔ ps <:+ s := by
  simp only [segMatch, if_true]
  rw [List.any_eq_true]
  constructor
  · rintro ⟨t, ht, hmatch⟩
    have := (segMatch_lit ps hstar t).mp hmatch
    subst this
    exact (List.mem_tails _ _).mp ht
  · intro hsuffix
    exact ⟨ps, (List.mem_tails _ _).mpr hsuffix, (segMatch_lit ps hstar ps).mpr rfl⟩

theorem globMatch_single_txt (t : List String) :
    globMatch ["*.txt"] t = true ↔ ∃ s, t = [s] ∧ ".txt".data <:+ s.data := by
  cases t with
  | nil =>
    constructor
    · intro h
      rw [globMatch, if_neg (by decide : ¬("*.txt" = "**"))] at h
      exact absurd h (by decide)
    · rintro ⟨s, hs, _⟩
      exact absurd hs (by simp)
  | cons s t' =>
    rw [globMatch, if_neg (by decide : ¬("*.txt" = "**")), Bool.and_eq_true]
    rw [show ("*.txt".data = '*' :: ".txt".data) from rfl]
    rw [segMatch_star _ (by decide)]
    rw [show (globMatch [] t' = t'.isEmpty) from rfl, List.isEmpty_iff]
    constructor
    · rintro ⟨hs, rfl⟩
      exact ⟨s, rfl, hs⟩
    · rintro ⟨s', hs', hsuf⟩
      injection hs' with h1 h2
      subst h1
      exact ⟨hsuf, h2⟩

theorem txtFile_iff (path : List String) :
    txtFile path = true
      ↔ ∃ s, path.getLast? = some s ∧ ".txt".data <:+ s.data := by
  cases hl : path.getLast? with
  | none => simp [txtFile, hl]
  | some n => simp [txtFile, hl, List.isSuffixOf_iff_suffix]

theorem globMatch_txtGlob (path : List String) :
    globMatch txtGlob path = txtFile path := by
  rw [Bool.eq_iff_iff]
  rw [show (globMatch txtGlob path
      = path.tails.any (fun t => globMatch ["*.txt"] t)) from rfl]
  rw [List.any_eq_true, txtFile_iff]
  constructor
  · rintro ⟨t, ht, hm⟩
    obtain ⟨s, rfl, hsuf⟩ := (globMatch_single_txt t).mp hm
    obtain ⟨l', rfl⟩ := (List.mem_tails _ _).mp ht
    exact ⟨s, List.getLast?_eq_some_iff.mpr ⟨l', rfl⟩, hsuf⟩
  · rintro ⟨s, hlast, hsuf⟩
    obtain ⟨ys, rfl⟩ := List.getLast?_eq_some_iff.mp hlast
    exact ⟨[s], (List.mem_tails _ _).mpr ⟨ys, rfl⟩,
      (globMatch_single_txt [s]).mpr ⟨s, rfl, hsuf⟩⟩

/-- Claim C8 (amended): the file loader, applied to the working directory,
loads exactly the files matching the source's recursive glob pattern, i.e.
the files whose final path segment ends in ".txt" at any directory depth —
each matching file's full text becomes one document tagged with its file
path, in listing order, and no other files are loaded. -/
theorem C8_file_loader_txt_any_depth (fs : List (List String × String)) :
    fileLoader fs = (fs.filter (fun f => txtFile f.1)).map mkFileDoc := by
  rw [fileLoader]
  congr 1
  exact List.filter_congr (fun f _ => globMatch_txtGlob f.1)

/-- Claim C8 counterexample: a text file in a subdirectory does not match
the glob pattern of the claim, yet the loader (whose source-configured
pattern is recursive) loads it. -/
theorem C8_counterexample_nested_txt :
    fileLoader [(["sub", "a.txt"], "hello")]
      = [⟨"hello", "sub/a.txt", none⟩]
    ∧ globMatch ["*.txt"] ["sub", "a.txt"] = false := by decide

/-- Claim C9: a complete run prints, in order, the loaded-web-document
count line, the character-count line for the first combined document, and
the generated answer, and nothing else. -/
theorem C9_process_output (web : List Document) (fs : List (List String × String))
    (embed : String → Vec) (llm : PromptMessages → String) (d : Document)
    (h : (all_docs web (fileLoader fs)).head? = some d) :
    (scriptRun web fs embed llm).1
      = [webCountMsg web, totalCharsMsg d,
        (graphInvoke embed (indexedStore embed web fs) llm theQuestion).answer] := by
  simp only [scriptRun, h]

/-- Witness for C9 at a one-document corpus. -/
theorem C9_process_output_witness :
    (all_docs [⟨"hi", "web", none⟩] (fileLoader [])).head?
      = some ⟨"hi", "web", none⟩
    ∧ (scriptRun [⟨"hi", "web", none⟩] [] (fun _ => [0]) (fun _ => "ok")).1
      = ["Loaded 1 web documents.", "Total characters: 2", "ok"] :=
  ⟨rfl, (C9_process_output [⟨"hi", "web", none⟩] [] (fun _ => [0])
      (fun _ => "ok") ⟨"hi", "web", none⟩ rfl).trans (by decide)⟩

/-- Claim C10: the run aborts with no pipeline state exactly when both
loaders return empty sequences, and indexing the first combined document is
safe exactly when at least one document was loaded. -/
theorem C10_empty_corpus_aborts (web : List Document)
    (fs : List (List String × String)) (embed : String → Vec)
    (llm : PromptMessages → String) :
    ((scriptRun web fs embed llm).2 = none ↔ web = [] ∧ fileLoader fs = [])
    ∧ ((all_docs web (fileLoader fs)).head?.isSome
        ↔ (web ≠ [] ∨ fileLoader fs ≠ [])) := by
  constructor
  · cases h : (all_docs web (fileLoader fs)).head? with
    | none =>
      have hnil := List.head?_eq_none_iff.mp h
      rw [all_docs] at hnil
      obtain ⟨h1, h2⟩ := List.append_eq_nil.mp hnil
      simp only [scriptRun, h]
      simp [h1, h2]
    | some d =>
      have hne : all_docs web (fileLoader fs) ≠ [] := by
        intro hnil
        rw [List.head?_eq_none_iff.mpr hnil] at h
        exact Option.noConfusion h
      simp only [scriptRun, h]
      constructor
      · intro hcontra
        exact absurd hcontra (by simp)
      · rintro ⟨h1, h2⟩
        exact absurd (by rw [all_docs, h1, h2]; rfl) hne
  · rw [List.head?_isSome, all_docs]
    simp only [ne_eq, List.append_eq_nil, not_and_or]

end Rag

namespace Rag

/-- Witness for C1 at a two-entry store whose entries are equidistant from
the query, exercising the length bound and the cross inequality between a
returned and a non-returned entry. -/
theorem C1_search_witness :
    (searchDocs [(0:ℤ)] 1 [(⟨"a", "s", none⟩, [1]), (⟨"b", "s", none⟩, [1])]).length
      = min 1 ([(⟨"a", "s", none⟩, [1]), (⟨"b", "s", none⟩, [1])] : List Entry).length
    ∧ entryKey [(0:ℤ)] ⟨0, (⟨"a", "s", none⟩, [1])⟩
      ≤ entryKey [(0:ℤ)] ⟨1, (⟨"b", "s", none⟩, [1])⟩ :=
  ⟨(C1_search_topk_sorted_stable [(0:ℤ)] 1
      [(⟨"a", "s", none⟩, [1]), (⟨"b", "s", none⟩, [1])]).1,
    (C1_search_topk_sorted_stable [(0:ℤ)] 1
        [(⟨"a", "s", none⟩, [1]), (⟨"b", "s", none⟩, [1])]).2.2.1
      ⟨0, (⟨"a", "s", none⟩, [1])⟩ (by decide)
      ⟨1, (⟨"b", "s", none⟩, [1])⟩ (by decide)⟩

/-- Witness for C2 at a concrete two-character document, whose single chunk
is within the length bound and carries offset zero. -/
theorem C2_splitter_witness :
    (⟨"ab", "s", some 0⟩ : Document).page_content.length ≤ 1000
    ∧ ∃ s, (⟨"ab", "s", some 0⟩ : Document).start_index = some s
        ∧ (⟨"ab", "s", some 0⟩ : Document).page_content.data
          = (((⟨"ab", "s", none⟩ : Document).page_content.data.drop s).take
              (⟨"ab", "s", some 0⟩ : Document).page_content.length) :=
  ⟨(C2_splitter_invariants ⟨"ab", "s", none⟩).1 ⟨"ab", "s", some 0⟩ (by decide),
    (C2_splitter_invariants ⟨"ab", "s", none⟩).2.1 ⟨"ab", "s", some 0⟩ (by decide)⟩

end Rag
